import Mathlib

/-!
# Verification of the `edls` directory-listing tool

Shallow embedding of the Go sources (`edls.go` and the main pipeline file):
the classification engine, the filter/sort/render pipeline and the flag
handling of `main`, together with theorems settling the specification
claims about them.

Conventions of the embedding:
* Go `int`/`int64` values are modelled as `Int`.
* `time.Time` values are modelled by their Unix-seconds integer, which is
  exactly what the sort stage compares (`modificationTime.Unix()`).
* Go strings are modelled on their character lists (`String.data`); Go
  string comparison is bytewise lexicographic on UTF-8, which agrees with
  lexicographic comparison of code-point lists.
* fallible operations (`os.ReadDir`, `DirEntry.Info`, `regexp.MatchString`)
  return `Option`/`Except` values; a Go `panic`/early `return` becomes an
  `Except.error`.
-/

namespace Edls

/-! ## File-type and extension constants (`edls.go`) -/

def fileRegular : Nat := 0
def fileDirectory : Nat := 1
def fileExecutable : Nat := 2
def fileCompress : Nat := 3
def fileImage : Nat := 4
def fileLink : Nat := 5

def exe : String := ".exe"
def deb : String := ".deb"
def zip : String := ".zip"
def gz : String := ".gz"
def tar : String := ".tar"
def rar : String := ".rar"
def png : String := ".png"
def jpg : String := ".jpg"
def gif : String := ".gif"

/-- Modelled from the spec: the platform-name constant `Windows` compared
against `runtime.GOOS` is declared in a repository file that is not under
`src/`; the spec (§4.1) says executable detection is extension-based "on one
platform" and permission-bit based elsewhere, so the constant is the GOOS
name of that platform. -/
def Windows : String := "windows"

/-! ## String helpers

Character-list versions of the Go `strings` operations used by the source
(`HasPrefix`, `HasSuffix`, `Contains`, `ToUpper`, `ToLower`); these are the
same functions expressed on `String.data` so that they compute by kernel
reduction. -/

/-- Go `strings.HasPrefix s p`. -/
def strHasPrefix (s p : String) : Bool :=
  p.data.isPrefixOf s.data

/-- Go `strings.HasSuffix s p`. -/
def strHasSuffix (s p : String) : Bool :=
  p.data.isSuffixOf s.data

/-- Go `strings.ToUpper`, as a character list. -/
def strToUpper (s : String) : List Char :=
  s.data.map Char.toUpper

/-- Go `strings.ToLower`, as a character list. -/
def strToLower (s : String) : List Char :=
  s.data.map Char.toLower

/-! ## The `file` record

Field-for-field image of the Go `file` struct as it is populated by
`getFile`; `modificationTime` is the Unix-seconds instant. -/

structure file where
  name : String
  isDir : Bool
  isHidden : Bool
  userName : String
  groupName : String
  size : Int
  modificationTime : Int
  mode : String
  fileType : Nat := fileRegular
deriving DecidableEq, Repr

/-! ## Classification predicates -/

/-- Predicate `isLink` — the mode string begins with `"L"`, case-insensitively. -/
def isLink (f : file) : Bool :=
  ("L".data).isPrefixOf (strToUpper f.mode)

/-- Predicate `isExec` — on Windows the name ends in `.exe`; elsewhere the mode string
contains the permission character `x` (Go `strings.Contains(f.mode, "x")`
with a one-character needle). -/
def isExec (goos : String) (f : file) : Bool :=
  if goos == Windows then strHasSuffix f.name exe else f.mode.data.contains 'x'

/-- Predicate `isCompress` — the name ends with one of the archive suffixes. -/
def isCompress (f : file) : Bool :=
  [deb, zip, gz, tar, rar].any fun s => strHasSuffix f.name s

/-- Predicate `isImage` — the name ends with one of the image suffixes. -/
def isImage (f : file) : Bool :=
  [png, jpg, gif].any fun s => strHasSuffix f.name s

/-- Predicate `isHidden` — purely name-based: a leading dot. The `basePath` argument
is present (and unused) exactly as in the source. -/
def isHidden (filename : String) (_basePath : String) : Bool :=
  strHasPrefix filename "."

/-- Function `setFile` — assigns the file type by the first matching predicate, in
the fixed order link, directory, executable, compressed, image, regular. -/
def setFile (goos : String) (f : file) : file :=
  if isLink f then { f with fileType := fileLink }
  else if f.isDir then { f with fileType := fileDirectory }
  else if isExec goos f then { f with fileType := fileExecutable }
  else if isCompress f then { f with fileType := fileCompress }
  else if isImage f then { f with fileType := fileImage }
  else { f with fileType := fileRegular }

/-! ## Sort stage -/

/-- Function `mySort` — the generic comparison: `i > j` when reversing, `i < j`
otherwise (the Go function is generic over `constraints.Ordered`; it is
instantiated at lowered name strings and at `int64` keys). -/
def mySort {α : Type} [LT α] [DecidableRel fun a b : α => a < b]
    (i j : α) (isReverse : Bool) : Bool :=
  if isReverse then decide (j < i) else decide (i < j)

/-- Go `sort.SliceStable` with comparison `less`: the stable sort placing
`a` before `b` whenever `less b a` is false. A stable sort is determined
uniquely by a strict-weak `less`, so insertion sort is a faithful model of
the library routine. -/
def sliceStable (less : file → file → Bool) (l : List file) : List file :=
  List.insertionSort (fun a b => less b a = false) l

/-- Function `orderByName` — stable sort on the lowercased name. -/
def orderByName (files : List file) (isReverse : Bool) : List file :=
  sliceStable
    (fun fi fj => mySort (strToLower fi.name) (strToLower fj.name) isReverse)
    files

/-- Function `orderBySize` — stable sort on the byte size. -/
def orderBySize (files : List file) (isReverse : Bool) : List file :=
  sliceStable (fun fi fj => mySort fi.size fj.size isReverse) files

/-- Function `orderByTime` — stable sort on the Unix-seconds modification instant
(`modificationTime.Unix()`). -/
def orderByTime (files : List file) (isReverse : Bool) : List file :=
  sliceStable
    (fun fi fj => mySort fi.modificationTime fj.modificationTime isReverse)
    files

/-- The sort dispatch of `main`: name sort when neither flag is set, size
sort when only `-s` is set, time sort when only `-t` is set (the three
guards of the source, run in sequence). -/
def sortFiles (byTime bySize isReverse : Bool) (fs : List file) : List file :=
  let fs1 := if !byTime && !bySize then orderByName fs isReverse else fs
  let fs2 := if bySize && !byTime then orderBySize fs1 isReverse else fs1
  if byTime && !bySize then orderByTime fs2 isReverse else fs2

/-! ## Directory entries and metadata -/

/-- The metadata `DirEntry.Info()` yields when it succeeds: size,
modification instant (Unix seconds) and rendered mode string. -/
structure fileInfo where
  size : Int
  modificationTime : Int
  mode : String
deriving DecidableEq, Repr

/-- One raw directory entry: name, directory flag, and the result of its
`Info()` call (`none` models a metadata-retrieval failure). -/
structure dirEntry where
  name : String
  isDir : Bool
  info : Option fileInfo
deriving DecidableEq, Repr

/-- Function `getFile` — builds the `file` record from an entry and its metadata and
classifies it with `setFile`; `none` when `Info()` fails. -/
def getFile (goos : String) (f : dirEntry) (hid : Bool) : Option file :=
  f.info.map fun info =>
    setFile goos
      { name := f.name
        isDir := f.isDir
        isHidden := hid
        userName := "user"
        groupName := "group"
        size := info.size
        modificationTime := info.modificationTime
        mode := info.mode }

/-! ## Pattern matching (external `regexp` engine) -/

/-- Modelled from the spec: the Go `regexp` package is outside this
repository. The source calls `regexp.MatchString("(?i)" + pattern, name)`,
which the spec (§4.2, §6) describes as a case-insensitive, unanchored
substring/regular-expression search whose compilation fails on a malformed
pattern (its example of malformedness is an unbalanced bracket expression).
The model covers metacharacter-free patterns: a pattern is well formed when
its square brackets balance, and a well-formed pattern matches a name when
it occurs case-insensitively as a substring; `none` models the non-nil
error returned for a malformed pattern. `containsSub needle hay` is the
substring search: some suffix of `hay` starts with `needle`. -/
def containsSub (needle : List Char) : List Char → Bool
  | [] => needle.isEmpty
  | c :: rest => needle.isPrefixOf (c :: rest) || containsSub needle rest

def matchString (pat name : String) : Option Bool :=
  if pat.data.count '[' = pat.data.count ']' then
    some (containsSub (strToLower pat) (strToLower name))
  else none

/-! ## The `main` pipeline -/

/-- The terminal outcomes of a run: `fmt.Println(err); return` after
`os.ReadDir`, `panic(err)` on a pattern-compilation error,
`fmt.Println(err); return` after `getFile`, and an out-of-range slice
`fs[:numRegisters]` in `printList`. -/
inductive runError where
  | readDirError
  | patternPanic
  | infoError
  | slicePanic
deriving DecidableEq, Repr

/-- The filter-and-build loop of `main`: skip hidden entries unless `-a`,
skip pattern mismatches (panicking on a malformed pattern), abort on a
metadata failure, otherwise append the classified file. -/
def buildFiles (goos path : String) (flagAll : Bool) (flagPattern : String) :
    List dirEntry → Except runError (List file)
  | [] => .ok []
  | f :: rest =>
    if isHidden f.name path && !flagAll then
      buildFiles goos path flagAll flagPattern rest
    else if flagPattern ≠ "" ∧ matchString flagPattern f.name = none then
      .error .patternPanic
    else if flagPattern ≠ "" ∧ matchString flagPattern f.name = some false then
      buildFiles goos path flagAll flagPattern rest
    else
      match getFile goos f (isHidden f.name path) with
      | none => .error .infoError
      | some archivo =>
        (buildFiles goos path flagAll flagPattern rest).map (archivo :: ·)

/-- The `-n` clamp of `main`: a value of zero, or one exceeding the list
length, is rewritten to the list length; anything else is kept. -/
def clampRecords (n : Int) (len : Nat) : Int :=
  if n = 0 ∨ n > (len : Int) then (len : Int) else n

/-- The Go slice expression `fs[:numRegisters]`: defined when
`0 ≤ numRegisters ≤ len(fs)`, out of range (a panic) otherwise. -/
def sliceTo (fs : List file) (n : Int) : Option (List file) :=
  if 0 ≤ n ∧ n ≤ (fs.length : Int) then some (fs.take n.toNat) else none

/-- Modelled from the spec: `mapStyleByFileType`, the static kind→display
table, lives in a repository file that is not under `src/`. Per §3/§4.4 it
maps each kind to an icon glyph and a trailing symbol — `/` for
directories, empty for regular files; the icon glyphs are placeholders. -/
def mapStyleByFileType (t : Nat) : String × String :=
  if t = fileDirectory then ("dir", "/")
  else if t = fileExecutable then ("exe", "")
  else if t = fileCompress then ("zip", "")
  else if t = fileImage then ("img", "")
  else if t = fileLink then ("lnk", "")
  else ("reg", "")

/-- Left-pads to width 8, the `%8d` of the row format. -/
def pad8 (s : String) : String :=
  String.mk (List.replicate (8 - s.data.length) ' ') ++ s

/-- One output row: `"%s %s %s %8d %v %s %s%s"` — mode, owner, group,
right-aligned size, modification instant (the `time.Stamp` rendering is
abstracted to the decimal instant), icon, name, trailing symbol. -/
def renderLine (f : file) : String :=
  let st := mapStyleByFileType f.fileType
  f.mode ++ " " ++ f.userName ++ " " ++ f.groupName ++ " "
    ++ pad8 (toString f.size) ++ " " ++ toString f.modificationTime ++ " "
    ++ st.1 ++ " " ++ f.name ++ st.2

/-- Function `printList` — renders one row per element of `fs[:numRegisters]`;
`none` models the slice panic. -/
def printList (fs : List file) (numRegisters : Int) : Option (List String) :=
  (sliceTo fs numRegisters).map (List.map renderLine)

/-- The flag set of `main`, with the flag-package defaults. -/
structure flags where
  pattern : String := ""
  all : Bool := false
  numRecords : Int := 0
  byTime : Bool := false
  bySize : Bool := false
  reverse : Bool := false
deriving DecidableEq, Repr

/-- The whole pipeline up to (and including) the slice taken by
`printList`, returning the files whose rows are printed: read the
directory, filter/build, sort, clamp `-n`, slice. `dir = none` models an
`os.ReadDir` failure. -/
def mainFiles (goos path : String) (fl : flags) (dir : Option (List dirEntry)) :
    Except runError (List file) :=
  match dir with
  | none => .error .readDirError
  | some files =>
    match buildFiles goos path fl.all fl.pattern files with
    | .error e => .error e
    | .ok fs =>
      let sorted := sortFiles fl.byTime fl.bySize fl.reverse fs
      match sliceTo sorted (clampRecords fl.numRecords sorted.length) with
      | none => .error .slicePanic
      | some out => .ok out

/-- A full run: the rows `printList` writes, or the terminal error. -/
def mainRun (goos path : String) (fl : flags) (dir : Option (List dirEntry)) :
    Except runError (List String) :=
  (mainFiles goos path fl dir).map (List.map renderLine)

/-- The rows actually written to standard output by a run: the program
prints rows only from `printList`, after every entry has been processed,
so a run that ends in an error has written none. -/
def renderedLines (r : Except runError (List String)) : List String :=
  match r with
  | .ok l => l
  | .error _ => []

/-- The names of the files of a successful run, in output order. -/
def runNames (goos path : String) (fl : flags) (dir : Option (List dirEntry)) :
    List String :=
  match mainFiles goos path fl dir with
  | .ok fs => fs.map (fun f => f.name)
  | .error _ => []

/-! ## The concrete directory of the end-to-end scenario (§8) -/

/-- Entry `a.txt`, size 10, the older file. -/
def entryATxt : dirEntry :=
  { name := "a.txt", isDir := false
    info := some { size := 10, modificationTime := 100, mode := "-rw-r--r--" } }

/-- Entry `B.TAR`, size 5, the newer file. -/
def entryBTar : dirEntry :=
  { name := "B.TAR", isDir := false
    info := some { size := 5, modificationTime := 200, mode := "-rw-r--r--" } }

/-- Entry `.secret`, the hidden file. -/
def entrySecret : dirEntry :=
  { name := ".secret", isDir := false
    info := some { size := 1, modificationTime := 50, mode := "-rw-r--r--" } }

/-- The scenario directory. -/
def scenarioDir : List dirEntry := [entryATxt, entryBTar, entrySecret]

/-- Well-formedness of a filter pattern in the modelled engine: balanced
square brackets (see `matchString`). -/
def patternOk (pat : String) : Bool :=
  pat.data.count '[' == pat.data.count ']'

/-- The spec's Filter-Stage contract (§4.2), `shouldInclude(entry,
options)`, stated from the spec's words to be compared with the loop of
`main`: the entry passes the hidden rule (no leading dot, unless
include-all) and the pattern rule (empty pattern, or a case-insensitive
match of the pattern against the raw name), conjunctively. -/
def shouldInclude (flagAll : Bool) (flagPattern path : String)
    (f : dirEntry) : Bool :=
  (!(isHidden f.name path) || flagAll) &&
    (flagPattern == "" || matchString flagPattern f.name == some true)

/-! ## Concrete inputs used by witnesses and counterexamples -/

/-- A plain regular file, metadata present. -/
def sampleDirTar : file :=
  { name := "arch.tar", isDir := true, isHidden := false, userName := "user"
    groupName := "group", size := 4096, modificationTime := 10
    mode := "drwxr-xr-x" }

/-- A later-modified, larger file (sorts after `sampleG` by every key). -/
def sampleF : file :=
  { name := "beta", isDir := false, isHidden := false, userName := "user"
    groupName := "group", size := 20, modificationTime := 200
    mode := "-rw-r--r--" }

/-- An earlier-modified, smaller file. -/
def sampleG : file :=
  { name := "alpha", isDir := false, isHidden := false, userName := "user"
    groupName := "group", size := 10, modificationTime := 100
    mode := "-rw-r--r--" }

/-- Two files that tie on every key but differ in name. -/
def tieA : file :=
  { name := "same-a", isDir := false, isHidden := false, userName := "user"
    groupName := "group", size := 7, modificationTime := 77
    mode := "-rw-r--r--" }

def tieB : file :=
  { name := "same-b", isDir := false, isHidden := false, userName := "user"
    groupName := "group", size := 7, modificationTime := 77
    mode := "-rw-r--r--" }

/-- An entry whose name matches the pattern `IMG` case-insensitively. -/
def entryImg : dirEntry :=
  { name := "img_001.png", isDir := false
    info := some { size := 3, modificationTime := 30, mode := "-rw-r--r--" } }

/-- An entry whose name does not contain `img`. -/
def entryDoc : dirEntry :=
  { name := "notes.txt", isDir := false
    info := some { size := 4, modificationTime := 40, mode := "-rw-r--r--" } }

/-- An entry whose metadata lookup fails. -/
def entryBad : dirEntry :=
  { name := "broken", isDir := false, info := none }

/-- The classified file built from `entryImg`. -/
def imgFile : file :=
  { name := "img_001.png", isDir := false, isHidden := false
    userName := "user", groupName := "group", size := 3
    modificationTime := 30, mode := "-rw-r--r--", fileType := fileImage }

/-! ## Helper lemmas -/

lemma isCompress_eq (f : file) :
    isCompress f
      = (strHasSuffix f.name ".deb" || strHasSuffix f.name ".zip"
          || strHasSuffix f.name ".gz" || strHasSuffix f.name ".tar"
          || strHasSuffix f.name ".rar") := by
  simp [isCompress, deb, zip, gz, tar, rar, Bool.or_assoc]

lemma isImage_eq (f : file) :
    isImage f
      = (strHasSuffix f.name ".png" || strHasSuffix f.name ".jpg"
          || strHasSuffix f.name ".gif") := by
  simp [isImage, png, jpg, gif, Bool.or_assoc]

/-! ## C1 — classification precedence -/

/-- C1. -- Classification is total — every entry gets exactly one of the
six kinds — and follows the fixed first-match-wins precedence: symbolic
link (mode string starts with `L`, case-insensitively), then directory,
then executable, then compressed (`.deb`/`.zip`/`.gz`/`.tar`/`.rar`,
case-sensitive), then image (`.png`/`.jpg`/`.gif`), then regular as the
default; in particular an entry that is both a directory and carries a
compressed suffix is classified as a directory, never as compressed. -/
theorem C1_classification_precedence (goos : String) (f : file) :
    (setFile goos f).fileType
        ∈ [fileRegular, fileDirectory, fileExecutable, fileCompress,
            fileImage, fileLink] ∧
    (isLink f = true → (setFile goos f).fileType = fileLink) ∧
    (isLink f = false → f.isDir = true →
      (setFile goos f).fileType = fileDirectory) ∧
    (isLink f = false → f.isDir = false → isExec goos f = true →
      (setFile goos f).fileType = fileExecutable) ∧
    (isLink f = false → f.isDir = false → isExec goos f = false →
      (strHasSuffix f.name ".deb" || strHasSuffix f.name ".zip"
          || strHasSuffix f.name ".gz" || strHasSuffix f.name ".tar"
          || strHasSuffix f.name ".rar") = true →
      (setFile goos f).fileType = fileCompress) ∧
    (isLink f = false → f.isDir = false → isExec goos f = false →
      isCompress f = false →
      (strHasSuffix f.name ".png" || strHasSuffix f.name ".jpg"
          || strHasSuffix f.name ".gif") = true →
      (setFile goos f).fileType = fileImage) ∧
    (isLink f = false → f.isDir = false → isExec goos f = false →
      isCompress f = false → isImage f = false →
      (setFile goos f).fileType = fileRegular) ∧
    (f.isDir = true → isLink f = false → isCompress f = true →
      (setFile goos f).fileType = fileDirectory ∧
        (setFile goos f).fileType ≠ fileCompress) := by
  refine ⟨?_, ?_, ?_, ?_, ?_, ?_, ?_, ?_⟩
  · unfold setFile
    split_ifs <;> simp
  · intro h1
    simp [setFile, h1]
  · intro h1 h2
    simp [setFile, h1, h2]
  · intro h1 h2 h3
    simp [setFile, h1, h2, h3]
  · intro h1 h2 h3 h4
    simp [setFile, h1, h2, h3, isCompress_eq, h4]
  · intro h1 h2 h3 h4 h5
    simp [setFile, h1, h2, h3, h4, isImage_eq, h5]
  · intro h1 h2 h3 h4 h5
    simp [setFile, h1, h2, h3, h4, h5]
  · intro h1 h2 h3
    refine ⟨by simp [setFile, h1, h2], ?_⟩
    simp [setFile, h1, h2, fileDirectory, fileCompress]

/-- Witness for C1 at a concrete entry that is a directory whose name ends
in `.tar`: it is classified as a directory, not as compressed. -/
theorem C1_witness :
    (setFile "linux" sampleDirTar).fileType = fileDirectory ∧
      (setFile "linux" sampleDirTar).fileType ≠ fileCompress :=
  (C1_classification_precedence "linux" sampleDirTar).2.2.2.2.2.2.2
    (by decide) (by decide) (by decide)

/-! ## Sort-stage lemmas -/

lemma sliceStable_perm (less : file → file → Bool) (l : List file) :
    List.Perm (sliceStable less l) l :=
  List.perm_insertionSort _ l

lemma sliceStable_sorted (less : file → file → Bool)
    (htrans : ∀ a b c : file,
      less b a = false → less c b = false → less c a = false)
    (htot : ∀ a b : file, less b a = false ∨ less a b = false)
    (l : List file) :
    (sliceStable less l).Pairwise (fun a b => less b a = false) := by
  haveI : IsTrans file (fun a b => less b a = false) := ⟨htrans⟩
  haveI : IsTotal file (fun a b => less b a = false) := ⟨htot⟩
  exact List.sorted_insertionSort _ l

lemma sliceStable_stable (less : file → file → Bool) {a b : file}
    {l : List file} (hab : less b a = false) (h : List.Sublist [a, b] l) :
    List.Sublist [a, b] (sliceStable less l) :=
  List.pair_sublist_insertionSort hab h

lemma mySort_chars_false_iff (i j : List Char) :
    (mySort i j false = false) ↔ j ≤ i := by
  simp [mySort]

lemma mySort_chars_true_iff (i j : List Char) :
    (mySort i j true = false) ↔ i ≤ j := by
  simp [mySort]

lemma mySort_chars_self (rev : Bool) (i : List Char) :
    mySort i i rev = false := by
  cases rev <;> simp [mySort]

lemma mySort_chars_trans (rev : Bool) (x y z : List Char)
    (h1 : mySort y x rev = false) (h2 : mySort z y rev = false) :
    mySort z x rev = false := by
  cases rev
  · rw [mySort_chars_false_iff] at h1 h2 ⊢
    exact le_trans h1 h2
  · rw [mySort_chars_true_iff] at h1 h2 ⊢
    exact le_trans h2 h1

lemma mySort_chars_total (rev : Bool) (x y : List Char) :
    mySort y x rev = false ∨ mySort x y rev = false := by
  cases rev
  · rw [mySort_chars_false_iff, mySort_chars_false_iff]
    exact le_total x y
  · rw [mySort_chars_true_iff, mySort_chars_true_iff]
    exact le_total y x

lemma mySort_int_false_iff (i j : Int) :
    (mySort i j false = false) ↔ j ≤ i := by
  simp [mySort]

lemma mySort_int_true_iff (i j : Int) :
    (mySort i j true = false) ↔ i ≤ j := by
  simp [mySort]

lemma mySort_int_self (rev : Bool) (i : Int) :
    mySort i i rev = false := by
  cases rev <;> simp [mySort]

lemma orderByName_sorted (r : Bool) (l : List file) :
    (orderByName l r).Pairwise
      (fun a b =>
        mySort (strToLower b.name) (strToLower a.name) r = false) := by
  exact sliceStable_sorted
    (fun fi fj => mySort (strToLower fi.name) (strToLower fj.name) r)
    (fun a b c h1 h2 => mySort_chars_trans r _ _ _ h1 h2)
    (fun a b => mySort_chars_total r _ _) l

/-! ## C2 — sort-flag precedence -/

/-- Counterexample to C2: with both `-t` and `-s` requested, none of the
three sort guards of `main` fires, so the list keeps its input order; on a
two-element list that is out of time order, this differs from time-sort
alone. -/
theorem C2_counterexample :
    sortFiles true true false [sampleF, sampleG]
      ≠ orderByTime [sampleF, sampleG] false := by
  decide

/-- C2, amended: When both the sort-by-time and the sort-by-size flags
are requested in the same invocation, no sort is applied at all — each of
the three guards (`!t && !s`, `s && !t`, `t && !s`) is false — so the list
keeps its pre-sort (enumeration/filter) order, which in general differs
from the order of time-sort alone; when neither flag is requested, the
list is sorted by name. -/
theorem C2_amended_sort_precedence (byTime bySize isReverse : Bool)
    (fs : List file) :
    (byTime = true → bySize = true →
      sortFiles byTime bySize isReverse fs = fs) ∧
    (byTime = false → bySize = false →
      sortFiles byTime bySize isReverse fs = orderByName fs isReverse) := by
  constructor <;> rintro rfl rfl <;> simp [sortFiles]

/-- Witness for the amended C2 on a concrete two-element list. -/
theorem C2_witness :
    sortFiles true true false [sampleF, sampleG] = [sampleF, sampleG] ∧
      sortFiles false false true [sampleF, sampleG]
        = orderByName [sampleF, sampleG] true :=
  ⟨(C2_amended_sort_precedence true true false [sampleF, sampleG]).1 rfl rfl,
    (C2_amended_sort_precedence false false true [sampleF, sampleG]).2 rfl rfl⟩

/-! ## C7 — reverse is a pure inversion (name key, no ties) -/

/-- C7. -- On a list with no ties on the lowercased-name key, name-sort
with `reverse = true` is exactly the reversal of name-sort with
`reverse = false`: the reverse flag only flips the single comparison. -/
theorem C7_reverse_inversion (fs : List file)
    (hnotie : fs.Pairwise fun a b => strToLower a.name ≠ strToLower b.name) :
    orderByName fs true = (orderByName fs false).reverse := by
  have hpermT : List.Perm (orderByName fs true) fs := sliceStable_perm _ fs
  have hpermF : List.Perm (orderByName fs false) fs := sliceStable_perm _ fs
  haveI : IsAntisymm file
      (fun a b => strToLower b.name < strToLower a.name) :=
    ⟨fun a b h1 h2 => absurd h2 (lt_asymm h1)⟩
  have hsymm : ∀ {a b : file},
      strToLower a.name ≠ strToLower b.name →
        strToLower b.name ≠ strToLower a.name := fun h => h.symm
  have hneT : (orderByName fs true).Pairwise
      (fun a b => strToLower a.name ≠ strToLower b.name) :=
    (List.Perm.pairwise_iff hsymm hpermT).mpr hnotie
  have hneF : (orderByName fs false).Pairwise
      (fun a b => strToLower a.name ≠ strToLower b.name) :=
    (List.Perm.pairwise_iff hsymm hpermF).mpr hnotie
  have hTs : (orderByName fs true).Pairwise
      (fun a b => strToLower b.name < strToLower a.name) := by
    refine ((orderByName_sorted true fs).and hneT).imp ?_
    rintro a b ⟨hle, hne⟩
    exact lt_of_le_of_ne ((mySort_chars_true_iff _ _).mp hle) hne.symm
  have hFs : ((orderByName fs false).reverse).Pairwise
      (fun a b => strToLower b.name < strToLower a.name) := by
    rw [List.pairwise_reverse]
    refine ((orderByName_sorted false fs).and hneF).imp ?_
    rintro a b ⟨hle, hne⟩
    exact lt_of_le_of_ne ((mySort_chars_false_iff _ _).mp hle) hne
  have hperm : List.Perm (orderByName fs true) ((orderByName fs false).reverse) :=
    (hpermT.trans hpermF.symm).trans ((orderByName fs false).reverse_perm).symm
  exact List.eq_of_perm_of_sorted hperm hTs hFs

/-- Witness for C7 on a concrete tie-free list. -/
theorem C7_witness :
    orderByName [sampleF, sampleG, sampleDirTar] true
      = (orderByName [sampleF, sampleG, sampleDirTar] false).reverse :=
  C7_reverse_inversion [sampleF, sampleG, sampleDirTar] (by decide)

/-! ## C8 — every sort key is stable -/

/-- C8. -- Each sort key is stable: two entries that compare equal under
the active key (equal lowercased names, equal sizes, or equal modification
instants) keep their pre-sort relative order, stated as preservation of
two-element sublists. -/
theorem C8_sort_stability (r : Bool) (a b : file) (fs : List file)
    (hsub : List.Sublist [a, b] fs) :
    (strToLower a.name = strToLower b.name →
      List.Sublist [a, b] (orderByName fs r)) ∧
    (a.size = b.size → List.Sublist [a, b] (orderBySize fs r)) ∧
    (a.modificationTime = b.modificationTime →
      List.Sublist [a, b] (orderByTime fs r)) := by
  refine ⟨fun hk => ?_, fun hk => ?_, fun hk => ?_⟩
  · exact sliceStable_stable _ (by rw [hk]; exact mySort_chars_self r _) hsub
  · exact sliceStable_stable _ (by rw [hk]; exact mySort_int_self r _) hsub
  · exact sliceStable_stable _ (by rw [hk]; exact mySort_int_self r _) hsub

/-- Witness for C8: two files with identical sizes and identical times keep
their order under size-sort and under time-sort. -/
theorem C8_witness :
    List.Sublist [tieA, tieB] (orderBySize [tieA, tieB, sampleG] false) ∧
      List.Sublist [tieA, tieB] (orderByTime [tieA, tieB, sampleG] true) := by
  have h := C8_sort_stability false tieA tieB [tieA, tieB, sampleG]
    (List.Sublist.cons₂ _ (List.Sublist.cons₂ _ (List.nil_sublist _)))
  have h' := C8_sort_stability true tieA tieB [tieA, tieB, sampleG]
    (List.Sublist.cons₂ _ (List.Sublist.cons₂ _ (List.nil_sublist _)))
  exact ⟨h.2.1 rfl, h'.2.2 rfl⟩

/-! ## C3 — the filter rules -/

lemma matchString_eq_some (pat name : String) (h : patternOk pat = true) :
    matchString pat name
      = some (containsSub (strToLower pat) (strToLower name)) := by
  unfold matchString
  rw [if_pos]
  simpa [patternOk] using h

lemma shouldInclude_false_of_hidden {flagAll : Bool} {path : String}
    (flagPattern : String) {f : dirEntry}
    (h1 : isHidden f.name path = true) (h2 : flagAll = false) :
    shouldInclude flagAll flagPattern path f = false := by
  simp [shouldInclude, h1, h2]

/-- C3. -- The working set is exactly the entries passing both filter
rules conjunctively: the hidden rule (no leading dot unless include-all)
and the pattern rule (empty pattern, or a case-insensitive match of the
pattern against the raw name); provided the pattern is well formed and
metadata retrieval succeeds, the build loop of `main` returns precisely
the classified files of the entries satisfying `shouldInclude`. -/
theorem C3_filter_conjunction (goos path : String) (flagAll : Bool)
    (flagPattern : String) (entries : List dirEntry)
    (hpat : flagPattern = "" ∨ patternOk flagPattern = true)
    (hinfo : ∀ e ∈ entries, e.info.isSome = true) :
    buildFiles goos path flagAll flagPattern entries
      = .ok ((entries.filter (shouldInclude flagAll flagPattern path)).filterMap
          (fun e => getFile goos e (isHidden e.name path))) := by
  induction entries with
  | nil => rfl
  | cons e rest ih =>
    have hinfoe : e.info.isSome = true := hinfo e (List.mem_cons_self _ _)
    have IH := ih fun x hx => hinfo x (List.mem_cons_of_mem _ hx)
    obtain ⟨i, hi⟩ := Option.isSome_iff_exists.mp hinfoe
    have hFs : (getFile goos e (isHidden e.name path)).isSome = true := by
      simp [getFile, hi]
    obtain ⟨F, hF⟩ := Option.isSome_iff_exists.mp hFs
    by_cases hh : (isHidden e.name path && !flagAll) = true
    · have h12 : isHidden e.name path = true ∧ flagAll = false := by
        simpa using hh
      have hinc := shouldInclude_false_of_hidden flagPattern h12.1 h12.2
      simp only [buildFiles]
      rw [if_pos hh, List.filter_cons_of_neg (by simp [hinc])]
      exact IH
    · have hpass : (!(isHidden e.name path) || flagAll) = true := by
        revert hh
        cases isHidden e.name path <;> cases flagAll <;> simp
      by_cases hpeq : flagPattern = ""
      · subst hpeq
        have hinc : shouldInclude flagAll "" path e = true := by
          simp [shouldInclude, hpass]
        have lhs1 : buildFiles goos path flagAll "" (e :: rest)
            = Except.map (fun x => F :: x)
                (buildFiles goos path flagAll "" rest) := by
          simp only [buildFiles]
          rw [if_neg hh, if_neg (by rintro ⟨h, -⟩; exact h rfl),
            if_neg (by rintro ⟨h, -⟩; exact h rfl), hF]
        have rhs1 : List.filter (shouldInclude flagAll "" path) (e :: rest)
            = e :: List.filter (shouldInclude flagAll "" path) rest :=
          List.filter_cons_of_pos (by simp [hinc])
        rw [lhs1, IH, rhs1]
        simp only [List.filterMap_cons, hF]
        rfl
      · have hpo : patternOk flagPattern = true := hpat.resolve_left hpeq
        have hm := matchString_eq_some flagPattern e.name hpo
        by_cases hcm :
            containsSub (strToLower flagPattern) (strToLower e.name) = true
        · have hinc : shouldInclude flagAll flagPattern path e = true := by
            simp [shouldInclude, hpass, hm, hcm]
          have hne2 :
              ¬(flagPattern ≠ "" ∧ matchString flagPattern e.name = none) := by
            rintro ⟨-, hn⟩
            rw [hm] at hn
            cases hn
          have hne3 : ¬(flagPattern ≠ "" ∧
              matchString flagPattern e.name = some false) := by
            rintro ⟨-, hsf⟩
            rw [hm] at hsf
            rw [Option.some_inj.mp hsf] at hcm
            cases hcm
          have lhs1 : buildFiles goos path flagAll flagPattern (e :: rest)
              = Except.map (fun x => F :: x)
                  (buildFiles goos path flagAll flagPattern rest) := by
            simp only [buildFiles]
            rw [if_neg hh, if_neg hne2, if_neg hne3, hF]
          have rhs1 :
              List.filter (shouldInclude flagAll flagPattern path) (e :: rest)
              = e :: List.filter (shouldInclude flagAll flagPattern path)
                  rest :=
            List.filter_cons_of_pos (by simp [hinc])
          rw [lhs1, IH, rhs1]
          simp only [List.filterMap_cons, hF]
          rfl
        · have hcm' : containsSub (strToLower flagPattern)
              (strToLower e.name) = false := by
            simpa using hcm
          have hinc : shouldInclude flagAll flagPattern path e = false := by
            simp [shouldInclude, hm, hcm', hpeq]
          have hne2 :
              ¬(flagPattern ≠ "" ∧ matchString flagPattern e.name = none) := by
            rintro ⟨-, hn⟩
            rw [hm] at hn
            cases hn
          simp only [buildFiles]
          rw [if_neg hh, if_neg hne2,
            if_pos ⟨hpeq, by rw [hm, hcm']⟩,
            List.filter_cons_of_neg (by simp [hinc])]
          exact IH

/-- Witness for C3: pattern `IMG` matches `img_001.png` case-insensitively
as a substring (not a full match) and leaves `notes.txt` out; the hidden
rule is not involved. -/
theorem C3_witness :
    buildFiles "linux" "." false "IMG" [entryImg, entryDoc]
      = .ok [imgFile] := by
  rw [C3_filter_conjunction "linux" "." false "IMG" [entryImg, entryDoc]
    (Or.inr (by decide)) (by decide)]
  congr 1

/-! ## C4 / C10 — the `-n` clamp and the slice -/

lemma clampRecords_of_neg {n : Int} (len : Nat) (h : n < 0) :
    clampRecords n len = n := by
  unfold clampRecords
  rw [if_neg]
  omega

lemma sliceTo_of_neg (fs : List file) {n : Int} (h : n < 0) :
    sliceTo fs n = none := by
  unfold sliceTo
  rw [if_neg]
  omega

lemma clampRecords_nonneg_le {n : Int} (len : Nat) (h : 0 ≤ n) :
    0 ≤ clampRecords n len ∧ clampRecords n len ≤ (len : Int) := by
  unfold clampRecords
  split_ifs <;> omega

/-- C4. -- The `-n` limit clamps but never pads: a value of zero, or one
greater than the number of entries, renders every entry; a value strictly
between zero and the entry count renders exactly the first that many
entries of the (already sorted) list; and no call ever renders more rows
than there are entries. -/
theorem C4_limit_clamps (fs : List file) (n : Int) :
    (n = 0 ∨ (fs.length : Int) < n →
      printList fs (clampRecords n fs.length) = some (fs.map renderLine)) ∧
    (0 < n → n < (fs.length : Int) →
      printList fs (clampRecords n fs.length)
        = some ((fs.take n.toNat).map renderLine)) ∧
    (∀ l, printList fs (clampRecords n fs.length) = some l →
      l.length ≤ fs.length) := by
  refine ⟨?_, ?_, ?_⟩
  · intro h
    have hc : clampRecords n fs.length = (fs.length : Int) := by
      unfold clampRecords
      rw [if_pos]
      omega
    rw [hc]
    unfold printList sliceTo
    rw [if_pos ⟨Int.natCast_nonneg _, le_refl _⟩]
    simp
  · intro h1 h2
    have hc : clampRecords n fs.length = n := by
      unfold clampRecords
      rw [if_neg]
      omega
    rw [hc]
    unfold printList sliceTo
    rw [if_pos ⟨le_of_lt h1, le_of_lt h2⟩]
    rfl
  · intro l hl
    unfold printList sliceTo at hl
    split at hl
    · dsimp only [Option.map] at hl
      cases Option.some_inj.mp hl
      simp only [List.length_map, List.length_take]
      omega
    · cases hl

/-- Witness for C4 on a two-element list: limit 5 renders both rows, limit
1 renders exactly the first row of the sorted list. -/
theorem C4_witness :
    printList [sampleF, sampleG] (clampRecords 5 [sampleF, sampleG].length)
        = some ([sampleF, sampleG].map renderLine) ∧
      printList [sampleF, sampleG] (clampRecords 1 [sampleF, sampleG].length)
        = some (([sampleF, sampleG].take (1 : Int).toNat).map renderLine) :=
  ⟨(C4_limit_clamps [sampleF, sampleG] 5).1 (Or.inr (by decide)),
    (C4_limit_clamps [sampleF, sampleG] 1).2.1 (by decide) (by decide)⟩

/-- C10. -- The slice `fs[:numRegisters]` of `printList` is in bounds
exactly when the `-n` value is non-negative: the clamp in `main` rewrites
zero and any excess value to the list length, so `0 ≤ numRegisters ≤
len(fs)` for every non-negative `-n`; a negative `-n` passes through the
clamp unchanged and makes the slice out of range — the run ends in the
slice panic. -/
theorem C10_slice_in_bounds_iff_nonneg (n : Int) (fs : List file) :
    (0 ≤ n →
      0 ≤ clampRecords n fs.length ∧
        clampRecords n fs.length ≤ (fs.length : Int) ∧
        (sliceTo fs (clampRecords n fs.length)).isSome = true) ∧
    (n < 0 → clampRecords n fs.length = n ∧ sliceTo fs n = none) ∧
    (∀ goos path (fl : flags) entries fsb, fl.numRecords < 0 →
      buildFiles goos path fl.all fl.pattern entries = .ok fsb →
      mainFiles goos path fl (some entries) = .error .slicePanic) := by
  refine ⟨?_, ?_, ?_⟩
  · intro h0
    obtain ⟨h1, h2⟩ := clampRecords_nonneg_le fs.length h0
    refine ⟨h1, h2, ?_⟩
    unfold sliceTo
    rw [if_pos ⟨h1, h2⟩]
    rfl
  · intro hneg
    exact ⟨clampRecords_of_neg fs.length hneg, sliceTo_of_neg fs hneg⟩
  · intro goos path fl entries fsb hneg hok
    simp only [mainFiles, hok]
    rw [clampRecords_of_neg _ hneg, sliceTo_of_neg _ hneg]

/-- Witness for C10: `-n -1` leaves the clamp untouched and the slice out
of range; on an empty directory the run ends in the slice panic. -/
theorem C10_witness :
    (clampRecords (-1) 0 = -1 ∧ sliceTo [] (-1) = none) ∧
      mainFiles "linux" "." { numRecords := -1 } (some [])
        = .error .slicePanic :=
  ⟨(C10_slice_in_bounds_iff_nonneg (-1) []).2.1 (by decide),
    (C10_slice_in_bounds_iff_nonneg (-1) []).2.2 "linux" "."
      { numRecords := -1 } [] [] (by decide) rfl⟩

/-! ## C5 — fatal errors yield no partial listing -/

lemma buildFiles_infoError (goos path : String) (flagAll : Bool)
    (flagPattern : String)
    (hpat : flagPattern = "" ∨ patternOk flagPattern = true) :
    ∀ entries : List dirEntry,
      (∃ e ∈ entries,
        shouldInclude flagAll flagPattern path e = true ∧ e.info = none) →
      buildFiles goos path flagAll flagPattern entries
        = .error .infoError := by
  intro entries
  induction entries with
  | nil =>
    rintro ⟨w, hw, -⟩
    simp at hw
  | cons e rest ih =>
    rintro ⟨w, hw, hwin, hwnone⟩
    by_cases hh : (isHidden e.name path && !flagAll) = true
    · have h12 : isHidden e.name path = true ∧ flagAll = false := by
        simpa using hh
      have hinc := shouldInclude_false_of_hidden flagPattern h12.1 h12.2
      have hwrest : w ∈ rest := by
        rcases List.mem_cons.mp hw with rfl | h
        · rw [hwin] at hinc
          cases hinc
        · exact h
      simp only [buildFiles]
      rw [if_pos hh]
      exact ih ⟨w, hwrest, hwin, hwnone⟩
    · by_cases hpeq : flagPattern = ""
      · subst hpeq
        simp only [buildFiles]
        rw [if_neg hh, if_neg (by rintro ⟨h, -⟩; exact h rfl),
          if_neg (by rintro ⟨h, -⟩; exact h rfl)]
        by_cases hei : e.info = none
        · have hg : getFile goos e (isHidden e.name path) = none := by
            simp [getFile, hei]
          rw [hg]
        · obtain ⟨i, hi⟩ := Option.ne_none_iff_exists'.mp hei
          have hFs : (getFile goos e (isHidden e.name path)).isSome = true := by
            simp [getFile, hi]
          obtain ⟨F, hF⟩ := Option.isSome_iff_exists.mp hFs
          have hwrest : w ∈ rest := by
            rcases List.mem_cons.mp hw with rfl | h
            · exact absurd hwnone hei
            · exact h
          rw [hF, ih ⟨w, hwrest, hwin, hwnone⟩]
          rfl
      · have hpo : patternOk flagPattern = true := hpat.resolve_left hpeq
        have hm := matchString_eq_some flagPattern e.name hpo
        have hne2 :
            ¬(flagPattern ≠ "" ∧ matchString flagPattern e.name = none) := by
          rintro ⟨-, hn⟩
          rw [hm] at hn
          cases hn
        by_cases hcm :
            containsSub (strToLower flagPattern) (strToLower e.name) = true
        · have hne3 : ¬(flagPattern ≠ "" ∧
              matchString flagPattern e.name = some false) := by
            rintro ⟨-, hsf⟩
            rw [hm] at hsf
            rw [Option.some_inj.mp hsf] at hcm
            cases hcm
          simp only [buildFiles]
          rw [if_neg hh, if_neg hne2, if_neg hne3]
          by_cases hei : e.info = none
          · have hg : getFile goos e (isHidden e.name path) = none := by
              simp [getFile, hei]
            rw [hg]
          · obtain ⟨i, hi⟩ := Option.ne_none_iff_exists'.mp hei
            have hFs :
                (getFile goos e (isHidden e.name path)).isSome = true := by
              simp [getFile, hi]
            obtain ⟨F, hF⟩ := Option.isSome_iff_exists.mp hFs
            have hwrest : w ∈ rest := by
              rcases List.mem_cons.mp hw with rfl | h
              · exact absurd hwnone hei
              · exact h
            rw [hF, ih ⟨w, hwrest, hwin, hwnone⟩]
            rfl
        · have hcm' : containsSub (strToLower flagPattern)
              (strToLower e.name) = false := by
            simpa using hcm
          have hinc : shouldInclude flagAll flagPattern path e = false := by
            simp [shouldInclude, hm, hcm', hpeq]
          have hwrest : w ∈ rest := by
            rcases List.mem_cons.mp hw with rfl | h
            · rw [hwin] at hinc
              cases hinc
            · exact h
          simp only [buildFiles]
          rw [if_neg hh, if_neg hne2, if_pos ⟨hpeq, by rw [hm, hcm']⟩]
          exact ih ⟨w, hwrest, hwin, hwnone⟩

/-- C5. -- Fatal collaborator failures never yield partial output: if the
directory cannot be enumerated, or metadata retrieval fails for an entry
that passed the filter, the run ends in the corresponding terminal error
with zero rendered rows — regardless of how many entries had already been
processed. -/
theorem C5_fatal_no_partial_output (goos path : String) (fl : flags) :
    (mainRun goos path fl none = .error .readDirError ∧
      renderedLines (mainRun goos path fl none) = []) ∧
    (∀ entries : List dirEntry,
      fl.pattern = "" ∨ patternOk fl.pattern = true →
      (∃ e ∈ entries,
        shouldInclude fl.all fl.pattern path e = true ∧ e.info = none) →
      mainRun goos path fl (some entries) = .error .infoError ∧
        renderedLines (mainRun goos path fl (some entries)) = []) := by
  refine ⟨⟨rfl, rfl⟩, ?_⟩
  intro entries hpat hex
  have hb := buildFiles_infoError goos path fl.all fl.pattern hpat entries hex
  have hm : mainRun goos path fl (some entries) = .error .infoError := by
    unfold mainRun
    simp only [mainFiles, hb]
    rfl
  refine ⟨hm, ?_⟩
  rw [hm]
  rfl

/-- Witness for C5: a one-entry directory whose entry fails metadata
retrieval ends in the metadata error with no rows rendered. -/
theorem C5_witness :
    mainRun "linux" "." {} (some [entryBad]) = .error .infoError ∧
      renderedLines (mainRun "linux" "." {} (some [entryBad])) = [] :=
  (C5_fatal_no_partial_output "linux" "." {}).2 [entryBad] (Or.inl rfl)
    ⟨entryBad, List.mem_cons_self _ _, by decide, rfl⟩

/-! ## C6 — a malformed pattern is fatal (but panics) -/

/-- The code evaluated at the failing input of C6: with the malformed
pattern `[` (unbalanced bracket) over a directory whose first kept entry is
`a.txt`, the run ends in the pattern panic — a fatal, immediate
configuration error, not a per-entry skip — and renders zero rows. The
panic, however, is raised with Go `panic(err)`, which prints a goroutine
stack trace, unlike the other fatal paths (`fmt.Println(err); return`),
so the claim's "no stack trace" clause does not hold of the code. -/
theorem C6_invalid_pattern_panics :
    mainRun "linux" "." { pattern := "[" } (some [entryATxt])
        = .error .patternPanic ∧
      renderedLines
        (mainRun "linux" "." { pattern := "[" } (some [entryATxt])) = [] :=
  ⟨rfl, rfl⟩

/-! ## C9 — the end-to-end scenario -/

/-- Counterexample to C9: case-insensitive name sort puts `a.txt` before
`B.TAR` (`a` < `b`), so the default invocation does not list `B.TAR`
first. -/
theorem C9_counterexample :
    runNames "linux" "." {} (some scenarioDir) ≠ ["B.TAR", "a.txt"] := by
  decide

/-- C9, amended: On the scenario directory (`a.txt` size 10 older,
`B.TAR` size 5 newer, `.secret` hidden), the default invocation lists
`a.txt` then `B.TAR` — the case-insensitive name-sorted order, since
`a` < `b` — and omits `.secret`; with include-all set, `.secret` also
appears, sorted by name among the three (the leading dot sorts first). -/
theorem C9_amended_scenario :
    runNames "linux" "." {} (some scenarioDir) = ["a.txt", "B.TAR"] ∧
      runNames "linux" "." { all := true } (some scenarioDir)
        = [".secret", "a.txt", "B.TAR"] := by
  constructor <;> decide

end Edls
